import Mathlib

/-!
Shallow embedding of `sparsam/dataset.py` (classes `BaseSet` and `ImageSet`).

External collaborators (PIL, pydicom, torchvision's `to_tensor`, and the
normalizer `min_max_normalize_tensor` from `sparsam.utils`, which is not part
of the embedded source) are abstracted into a `World` record of pure
operations over abstract image / tensor / pixel-array types.  The control flow
of the Python code — Python truthiness tests included — is translated
statement by statement.  Fallible Python operations (`list[i]`, `list.index`,
`PIL.Image.resize` with a non-tuple argument) return `Except PyError`.
-/

/-- Python exceptions that the embedded code can raise. -/
inductive PyError : Type where
  | indexError : PyError
  | valueError : PyError
  | typeError : PyError
deriving DecidableEq, Repr

/-- A file path, exposing only what the code inspects: its extension
(`pathlib.Path.suffix`) and an identity (`name`) that the abstract decoding
operations may depend on. -/
structure FPath : Type where
  suffix : String
  name : String
deriving DecidableEq, Repr

/-- PIL interpolation modes; the code always passes `Image.NEAREST`. -/
inductive Interp : Type where
  | nearest : Interp
  | bilinear : Interp
  | bicubic : Interp
deriving DecidableEq, Repr

/-- The external libraries, abstracted: `Img` models `PIL.Image.Image`,
`Tens` models `torch.Tensor`, `Arr` models a numpy pixel array. -/
structure World (Img Tens Arr : Type) : Type where
  /-- `pydicom.dcmread(path).pixel_array` -/
  dcmPixelArray : FPath → Arr
  /-- `Image.fromarray(arr, mode)` with mode `'RGB'` -/
  fromarrayRGB : Arr → Img
  /-- `Image.open(path).convert('RGB')` -/
  openRGB : FPath → Img
  /-- `img.resize(size, interpolation)` -/
  resize : Img → Nat × Nat → Interp → Img
  /-- `torchvision.transforms.functional.to_tensor(img)` -/
  to_tensor : Img → Tens
  /-- the observable spatial size (width, height) of a PIL image -/
  imgSize : Img → Nat × Nat
  /-- `functools.partial(min_max_normalize_tensor, min_value=0, max_value=1)`
  from `sparsam.utils` (outside the embedded file, kept abstract) -/
  min_max01 : Tens → Tens

/-- A value flowing through the pipeline: either a PIL image or a tensor
(the dynamic `Tensor | ImageType` union in the Python annotations). -/
inductive PVal (Img Tens : Type) : Type where
  | img : Img → PVal Img Tens
  | tens : Tens → PVal Img Tens

/-- What the decode step / augmentation may hand to the pipeline: a single
image-like value, or a Python `list` of them (multi-view case).  The
`isinstance(img, list)` test in `__getitem__` distinguishes exactly these. -/
inductive Item (Img Tens : Type) : Type where
  | single : PVal Img Tens → Item Img Tens
  | list : List (PVal Img Tens) → Item Img Tens

/-- The first component of `__getitem__`'s result: a tensor or a list of
tensors. -/
inductive Out (Tens : Type) : Type where
  | single : Tens → Out Tens
  | list : List Tens → Out Tens
deriving DecidableEq

/-- The label emitted by `_get_image_label_pair`: either a Python `int`
(the placeholder `0` or a class index) or a raw label value taken unchanged
from `labels`. -/
inductive OutLabel (L : Type) : Type where
  | ofInt : Nat → OutLabel L
  | ofRaw : L → OutLabel L
deriving DecidableEq, Repr

/-- Python `xs[i]` on a list with a non-negative index: raises `IndexError`
when out of range. -/
def pyGetElem {α : Type} (xs : List α) (i : Nat) : Except PyError α :=
  match xs[i]? with
  | some x => Except.ok x
  | none => Except.error PyError.indexError

/-- Python `xs.index(x)`: the first position of `x` in `xs`, raising
`ValueError` when `x` does not occur. -/
def pyListIndex {α : Type} [DecidableEq α] : List α → α → Except PyError Nat
  | [], _ => Except.error PyError.valueError
  | y :: ys, x => if y = x then Except.ok 0 else (pyListIndex ys x).map (· + 1)

/-- Python `sorted(list(set(xs)))`: the distinct values of `xs` in ascending
order. -/
def pySortedSet {α : Type} [DecidableEq α] [LinearOrder α] (xs : List α) : List α :=
  List.insertionSort (· ≤ ·) xs.dedup

/-- Python truthiness of an optional sequence: `None` and the empty list are
falsy, a non-empty list is truthy. -/
def listTruthy {α : Type} : Option (List α) → Bool
  | Option.none => false
  | some xs => !xs.isEmpty

/-- The `img_size` constructor argument: absent (`None`), a single `int`, or
a `(width, height)` tuple.  Python truthiness: `None` and `0` are falsy,
every tuple and every non-zero `int` is truthy. -/
inductive ImgSizeArg : Type where
  | none : ImgSizeArg
  | int : Nat → ImgSizeArg
  | pair : Nat → Nat → ImgSizeArg
deriving DecidableEq, Repr

/-- Python truthiness of the stored `img_size` attribute. -/
def ImgSizeArg.truthy : ImgSizeArg → Bool
  | ImgSizeArg.none => false
  | ImgSizeArg.int n => n != 0
  | ImgSizeArg.pair _ _ => true

/-- States of `img_size` reachable through `ImageSet.__init__`: a non-zero
plain `int` has always been replaced by a tuple. -/
def ImgSizeArg.wellFormed : ImgSizeArg → Prop
  | ImgSizeArg.int n => n = 0
  | _ => True

/-- The `normalize` constructor argument: `True`, `False`/`None`, or a
custom callable. -/
inductive NormalizeArg (Tens : Type) : Type where
  | tru : NormalizeArg Tens
  | fls : NormalizeArg Tens
  | fn : (Tens → Tens) → NormalizeArg Tens

/-- `BaseSet.__init__`'s resolution of `normalize`: `True` becomes the
default min-max normalizer, anything falsy is recorded as absent, a callable
is kept.  (`if self.normalize:` later treats `False`/`None` as absent and a
callable as present.) -/
def resolveNormalize {Img Tens Arr : Type} (w : World Img Tens Arr) :
    NormalizeArg Tens → Option (Tens → Tens)
  | NormalizeArg.tru => some w.min_max01
  | NormalizeArg.fls => Option.none
  | NormalizeArg.fn f => some f

/-- The state of an `ImageSet` instance after `__init__` (the `BaseSet`
attributes `data_augmentation` and `normalize` are inlined, as Python
inheritance stores them on the same object). -/
structure ImageSet (Img Tens L : Type) : Type where
  img_paths : List FPath
  labels : Option (List L)
  class_names : Option (List L)
  img_size : ImgSizeArg
  data_augmentation : Option (Item Img Tens → Item Img Tens)
  normalize : Option (Tens → Tens)

/-- `ImageSet.__init__`.  Truthiness is modelled faithfully: `if class_names:`
and `elif labels:` treat `None` and empty sequences as falsy; `if img_size and
not isinstance(img_size, tuple):` squares a non-zero `int` and leaves `0`,
`None` and tuples unchanged. -/
def ImageSet.init {Img Tens Arr L : Type} [DecidableEq L] [LinearOrder L]
    (w : World Img Tens Arr)
    (img_paths : List FPath) (labels : Option (List L)) (img_size : ImgSizeArg)
    (data_augmentation : Option (Item Img Tens → Item Img Tens))
    (class_names : Option (List L)) (normalize : NormalizeArg Tens) :
    ImageSet Img Tens L where
  img_paths := img_paths
  labels := labels
  class_names :=
    if listTruthy class_names then class_names
    else if listTruthy labels then some (pySortedSet (labels.getD []))
    else Option.none
  img_size :=
    match img_size with
    | ImgSizeArg.int n => if n = 0 then ImgSizeArg.int 0 else ImgSizeArg.pair n n
    | s => s
  data_augmentation := data_augmentation
  normalize := resolveNormalize w normalize

/-- `BaseSet.set_data_augmentation`: the only mutator; replaces the
augmentation callable and touches nothing else. -/
def ImageSet.set_data_augmentation {Img Tens L : Type} (ds : ImageSet Img Tens L)
    (f : Option (Item Img Tens → Item Img Tens)) : ImageSet Img Tens L :=
  { ds with data_augmentation := f }

/-- `ImageSet.__len__`. -/
def ImageSet.len {Img Tens L : Type} (ds : ImageSet Img Tens L) : Nat :=
  ds.img_paths.length

/-- `ImageSet._get_image_label_pair`: resolve the path, branch on the `.dcm`
extension, optionally resize (a non-zero plain-`int` size, unreachable from
`__init__`, would make PIL's `resize` raise `TypeError`), then resolve the
label exactly as the Python `if self.labels is not None: ...` block does. -/
def ImageSet.getImageLabelPair {Img Tens Arr L : Type} [DecidableEq L]
    (w : World Img Tens Arr) (ds : ImageSet Img Tens L) (index : Nat) :
    Except PyError (Img × OutLabel L) := do
  let path ← pyGetElem ds.img_paths index
  let img :=
    if path.suffix = ".dcm" then w.fromarrayRGB (w.dcmPixelArray path)
    else w.openRGB path
  let img ←
    match ds.img_size with
    | ImgSizeArg.pair a b => pure (w.resize img (a, b) Interp.nearest)
    | ImgSizeArg.int n =>
        if n = 0 then pure img else Except.error PyError.typeError
    | ImgSizeArg.none => pure img
  let label ←
    match ds.labels with
    | some lbls => do
        let rawLabel ← pyGetElem lbls index
        match ds.class_names with
        | some cns => (pyListIndex cns rawLabel).map OutLabel.ofInt
        | Option.none => pure (OutLabel.ofRaw rawLabel)
    | Option.none => pure (OutLabel.ofInt 0)
  pure (img, label)

/-- `BaseSet._normalize`: convert to a tensor when the value is not already
one, then apply the configured normalizer if any. -/
def BaseSet.normalizeStep {Img Tens Arr : Type} (w : World Img Tens Arr)
    (normalize : Option (Tens → Tens)) (v : PVal Img Tens) : Tens :=
  let t :=
    match v with
    | PVal.tens t => t
    | PVal.img i => w.to_tensor i
  match normalize with
  | some f => f t
  | Option.none => t

/-- `BaseSet.__getitem__`, parametrised by the abstract decode step
`_get_image_label_pair`: decode, apply augmentation (when set) to the whole
decoded value, then normalize — element-wise when the result is a `list`. -/
def BaseSet.getitem {Img Tens Arr L : Type} (w : World Img Tens Arr)
    (data_augmentation : Option (Item Img Tens → Item Img Tens))
    (normalize : Option (Tens → Tens))
    (decode : Nat → Except PyError (Item Img Tens × OutLabel L))
    (index : Nat) : Except PyError (Out Tens × OutLabel L) := do
  let pair ← decode index
  let img0 := pair.1
  let label := pair.2
  let img1 :=
    match data_augmentation with
    | some f => f img0
    | Option.none => img0
  let out :=
    match img1 with
    | Item.list views => Out.list (views.map (BaseSet.normalizeStep w normalize))
    | Item.single v => Out.single (BaseSet.normalizeStep w normalize v)
  pure (out, label)

/-- `ImageSet.__getitem__` (inherited from `BaseSet`, with `ImageSet`'s
decode step, which always yields a single PIL image). -/
def ImageSet.getitem {Img Tens Arr L : Type} [DecidableEq L]
    (w : World Img Tens Arr) (ds : ImageSet Img Tens L) (index : Nat) :
    Except PyError (Out Tens × OutLabel L) :=
  BaseSet.getitem w ds.data_augmentation ds.normalize
    (fun j => (ds.getImageLabelPair w j).map
      (fun p => (Item.single (PVal.img p.1), p.2)))
    index

/-- State-passing form of `__getitem__`: the Python method body only reads
`self` (no statement assigns to any attribute), so the instance after the
call is the instance before it. -/
def ImageSet.getitemSt {Img Tens Arr L : Type} [DecidableEq L]
    (w : World Img Tens Arr) (ds : ImageSet Img Tens L) (index : Nat) :
    Except PyError (Out Tens × OutLabel L) × ImageSet Img Tens L :=
  (ImageSet.getitem w ds index, ds)

/-! ### Derived decompositions and library lemmas -/

/-- The label-resolution part of `_get_image_label_pair`, as a standalone
function.  This is a decomposition of the embedded method, validated against
it by `ImageSet.getImageLabelPair_decomp` below. -/
def ImageSet.resolvedLabel {Img Tens L : Type} [DecidableEq L]
    (ds : ImageSet Img Tens L) (index : Nat) : Except PyError (OutLabel L) :=
  match ds.labels with
  | some lbls =>
      (pyGetElem lbls index).bind (fun rawLabel =>
        match ds.class_names with
        | some cns => (pyListIndex cns rawLabel).map OutLabel.ofInt
        | Option.none => Except.ok (OutLabel.ofRaw rawLabel))
  | Option.none => Except.ok (OutLabel.ofInt 0)

/-- The format branch of `_get_image_label_pair`: the RGB image obtained
from a path before any resize (pixel-array extraction for `.dcm`, general
raster opening otherwise). -/
def World.rawRGB {Img Tens Arr : Type} (w : World Img Tens Arr) (path : FPath) : Img :=
  if path.suffix = ".dcm" then w.fromarrayRGB (w.dcmPixelArray path)
  else w.openRGB path

/-- The image part of `_get_image_label_pair` for a resolved path, as a
standalone function (same decomposition). -/
def ImageSet.decodedImage {Img Tens Arr L : Type} (w : World Img Tens Arr)
    (ds : ImageSet Img Tens L) (path : FPath) : Img :=
  match ds.img_size with
  | ImgSizeArg.pair a b => w.resize (w.rawRGB path) (a, b) Interp.nearest
  | _ => w.rawRGB path

/-- `_get_image_label_pair` factors into its image part and its label part
whenever the path lookup succeeds and `img_size` is in a state reachable
from `__init__`. -/
theorem ImageSet.getImageLabelPair_decomp {Img Tens Arr L : Type} [DecidableEq L]
    (w : World Img Tens Arr) (ds : ImageSet Img Tens L) (index : Nat) (path : FPath)
    (hpath : ds.img_paths[index]? = some path) (hwf : ds.img_size.wellFormed) :
    ds.getImageLabelPair w index =
      (ds.resolvedLabel index).map (fun lbl => (ds.decodedImage w path, lbl)) := by
  unfold ImageSet.getImageLabelPair ImageSet.resolvedLabel ImageSet.decodedImage World.rawRGB
  rw [pyGetElem, hpath]
  have hn0 : ∀ n, ds.img_size = ImgSizeArg.int n → n = 0 := by
    intro n hsz
    have h := hwf
    rw [hsz] at h
    exact h
  rcases hsz : ds.img_size with _ | n | ⟨a, b⟩
  ·
    rcases hlb : ds.labels with _ | lbls
    · rfl
    · rcases hget : pyGetElem lbls index with e | rawLabel
      · simp [Bind.bind, Except.bind, Except.map, Functor.map, pure, Except.pure, hget]
      · rcases hcn : ds.class_names with _ | cns
        · simp [Bind.bind, Except.bind, Except.map, Functor.map, pure, Except.pure, hget]
        · rcases hidx2 : pyListIndex cns rawLabel with e2 | i <;>
            simp [Bind.bind, Except.bind, Except.map, Functor.map, pure, Except.pure, hget, hidx2]
  · rw [hn0 n hsz]
    simp only [if_pos rfl]
    rcases hlb : ds.labels with _ | lbls
    · rfl
    · rcases hget : pyGetElem lbls index with e | rawLabel
      · simp [Bind.bind, Except.bind, Except.map, Functor.map, pure, Except.pure, hget]
      · rcases hcn : ds.class_names with _ | cns
        · simp [Bind.bind, Except.bind, Except.map, Functor.map, pure, Except.pure, hget]
        · rcases hidx2 : pyListIndex cns rawLabel with e2 | i <;>
            simp [Bind.bind, Except.bind, Except.map, Functor.map, pure, Except.pure, hget, hidx2]
  ·
    rcases hlb : ds.labels with _ | lbls
    · rfl
    · rcases hget : pyGetElem lbls index with e | rawLabel
      · simp [Bind.bind, Except.bind, Except.map, Functor.map, pure, Except.pure, hget]
      · rcases hcn : ds.class_names with _ | cns
        · simp [Bind.bind, Except.bind, Except.map, Functor.map, pure, Except.pure, hget]
        · rcases hidx2 : pyListIndex cns rawLabel with e2 | i <;>
            simp [Bind.bind, Except.bind, Except.map, Functor.map, pure, Except.pure, hget, hidx2]

/-- `pyListIndex` returns the position of the first occurrence: the element
is at that index and at no earlier one. -/
theorem pyListIndex_spec {α : Type} [DecidableEq α] (xs : List α) (x : α) (i : Nat)
    (h : pyListIndex xs x = Except.ok i) :
    xs[i]? = some x ∧ ∀ j, j < i → xs[j]? ≠ some x := by
  induction xs generalizing i with
  | nil => simp [pyListIndex] at h
  | cons y ys ih =>
      by_cases hy : y = x
      · rw [pyListIndex, if_pos hy] at h
        injection h with h0
        subst h0
        subst hy
        exact ⟨by simp, fun j hj => absurd hj (Nat.not_lt_zero j)⟩
      · rw [pyListIndex, if_neg hy] at h
        cases hrec : pyListIndex ys x with
        | error e => rw [hrec] at h; simp [Except.map] at h
        | ok k =>
            rw [hrec] at h
            simp only [Except.map] at h
            injection h with h0
            subst h0
            obtain ⟨h1, h2⟩ := ih k hrec
            refine ⟨by simpa using h1, ?_⟩
            intro j hj
            cases j with
            | zero =>
                simp only [List.getElem?_cons_zero]
                intro hcontra
                exact hy (Option.some.inj hcontra)
            | succ j =>
                simp only [List.getElem?_cons_succ]
                exact h2 j (Nat.lt_of_succ_lt_succ hj)

/-- `pyListIndex` succeeds on members. -/
theorem pyListIndex_mem {α : Type} [DecidableEq α] (xs : List α) (x : α)
    (h : x ∈ xs) : ∃ i, pyListIndex xs x = Except.ok i := by
  induction xs with
  | nil => cases h
  | cons y ys ih =>
      by_cases hy : y = x
      · exact ⟨0, by rw [pyListIndex, if_pos hy]⟩
      · have hmem : x ∈ ys := by
          cases h with
          | head => exact absurd rfl hy
          | tail _ h2 => exact h2
        obtain ⟨i, hi⟩ := ih hmem
        exact ⟨i + 1, by rw [pyListIndex, if_neg hy, hi]; rfl⟩

/-- `pyListIndex` raises `ValueError` exactly on non-members. -/
theorem pyListIndex_not_mem {α : Type} [DecidableEq α] (xs : List α) (x : α)
    (h : x ∉ xs) : pyListIndex xs x = Except.error PyError.valueError := by
  induction xs with
  | nil => rfl
  | cons y ys ih =>
      have hy : y ≠ x := fun hc => h (hc ▸ List.mem_cons_self y ys)
      have hys : x ∉ ys := fun hc => h (List.mem_cons_of_mem y hc)
      rw [pyListIndex, if_neg hy, ih hys]
      rfl

/-- `BaseSet.__getitem__` as a map over the decode step's result: the label
is carried through unchanged and the image part goes through augmentation
(when configured) and the normalization dispatch. -/
theorem BaseSet.getitem_eq {Img Tens Arr L : Type} (w : World Img Tens Arr)
    (data_augmentation : Option (Item Img Tens → Item Img Tens))
    (normalize : Option (Tens → Tens))
    (decode : Nat → Except PyError (Item Img Tens × OutLabel L)) (index : Nat) :
    BaseSet.getitem w data_augmentation normalize decode index =
      (decode index).map (fun pair =>
        ((match (match data_augmentation with
                 | some f => f pair.1
                 | Option.none => pair.1) with
          | Item.list views => Out.list (views.map (BaseSet.normalizeStep w normalize))
          | Item.single v => Out.single (BaseSet.normalizeStep w normalize v)), pair.2)) := by
  unfold BaseSet.getitem
  cases decode index with
  | error e => simp [Bind.bind, Except.bind, Except.map]
  | ok pair => simp [Bind.bind, Except.bind, Except.map, pure, Except.pure]

/-! ### Concrete instantiation used by witnesses and counterexamples -/

/-- A concrete external world for witnesses: an image or tensor is a
`(width, height)` pair, a pixel array is a `Nat`; `resize` really produces
an image of the requested size (`imgSize` of the result is the target). -/
def Wt : World (Nat × Nat) (Nat × Nat) Nat where
  dcmPixelArray := fun p => p.name.length
  fromarrayRGB := fun a => (a, a + 1)
  openRGB := fun p => (p.name.length + 7, 5)
  resize := fun _ sz _ => sz
  to_tensor := fun i => i
  imgSize := fun i => i
  min_max01 := fun t => t

/-- A `.jpg` path whose raw open under `Wt` is the 8×5 image `(8, 5)`. -/
def pJpg : FPath := { suffix := ".jpg", name := "a" }

/-- A `.png` path whose raw open under `Wt` is the 9×5 image `(9, 5)`. -/
def pPng : FPath := { suffix := ".png", name := "bb" }

/-- A `.dcm` path: under `Wt` its pixel array is `3` and the constructed
RGB image is `(3, 4)`. -/
def pDcm : FPath := { suffix := ".dcm", name := "ccc" }

/-- A labeled dataset with an explicit class vocabulary `[8, 7]`:
the raw label of index 0 is `7`, whose class index is `1`. -/
def dsModes : ImageSet (Nat × Nat) (Nat × Nat) Nat :=
  ImageSet.init Wt [pJpg, pPng] (some [7, 8]) ImgSizeArg.none Option.none
    (some [8, 7]) NormalizeArg.fls

/-- The spec's label-table example: labels `['cat', 'dog', 'cat']` and no
explicit class names. -/
def dsCats : ImageSet (Nat × Nat) (Nat × Nat) String :=
  ImageSet.init Wt [pJpg, pPng, pDcm] (some ["cat", "dog", "cat"]) ImgSizeArg.none
    Option.none Option.none NormalizeArg.fls

/-- An unlabeled dataset constructed with `img_size = 0`: the integer zero is
falsy, so `__init__` keeps it as-is and the decode step never resizes. -/
def dsZero : ImageSet (Nat × Nat) (Nat × Nat) Nat :=
  ImageSet.init Wt [pJpg] Option.none (ImgSizeArg.int 0) Option.none Option.none
    NormalizeArg.fls

/-- A dataset built with two paths but a single label: `__init__` accepts
the mismatch without any check. -/
def dsMismatch : ImageSet (Nat × Nat) (Nat × Nat) Nat :=
  ImageSet.init Wt [pJpg, pPng] (some [3]) ImgSizeArg.none Option.none Option.none
    NormalizeArg.fls

/-- A dataset whose raw label `5` does not occur in its explicit class
vocabulary `[1, 2]`. -/
def dsOrphan : ImageSet (Nat × Nat) (Nat × Nat) Nat :=
  ImageSet.init Wt [pJpg] (some [5]) ImgSizeArg.none Option.none (some [1, 2])
    NormalizeArg.fls

/-- A dataset with a `.dcm` path first and a `.jpg` path second. -/
def dsMixed : ImageSet (Nat × Nat) (Nat × Nat) Nat :=
  ImageSet.init Wt [pDcm, pJpg] Option.none ImgSizeArg.none Option.none Option.none
    NormalizeArg.fls

/-- A dataset with an integer target size `2` (squared to `(2, 2)`). -/
def dsSq : ImageSet (Nat × Nat) (Nat × Nat) Nat :=
  ImageSet.init Wt [pJpg] Option.none (ImgSizeArg.int 2) Option.none Option.none
    NormalizeArg.fls

/-! ### Claims -/

/-- C1: with an augmentation configured, `__getitem__` applies the stages in
the fixed order decode → augmentation → normalization; the augmentation is
applied to the whole decoded value (no branching on single-image vs list
before it), and if the augmented result is a list, normalization is applied
independently to each element, preserving the list's order and length,
otherwise normalization is applied once. -/
theorem C1_stage_order {Img Tens Arr L : Type} (w : World Img Tens Arr)
    (f : Item Img Tens → Item Img Tens) (nz : Option (Tens → Tens))
    (decode : Nat → Except PyError (Item Img Tens × OutLabel L))
    (index : Nat) (item : Item Img Tens) (lbl : OutLabel L)
    (hdec : decode index = Except.ok (item, lbl)) :
    (BaseSet.getitem w (some f) nz decode index =
      Except.ok
        ((match f item with
          | Item.list views => Out.list (views.map (BaseSet.normalizeStep w nz))
          | Item.single v => Out.single (BaseSet.normalizeStep w nz v)), lbl))
    ∧ (∀ views, f item = Item.list views →
        ∃ ts, BaseSet.getitem w (some f) nz decode index =
            Except.ok (Out.list ts, lbl)
          ∧ ts.length = views.length
          ∧ ∀ k, k < views.length →
              ts[k]? = (views[k]?).map (BaseSet.normalizeStep w nz))
    ∧ (∀ v, f item = Item.single v →
        BaseSet.getitem w (some f) nz decode index =
          Except.ok (Out.single (BaseSet.normalizeStep w nz v), lbl)) := by
  have hcore : BaseSet.getitem w (some f) nz decode index =
      Except.ok
        ((match f item with
          | Item.list views => Out.list (views.map (BaseSet.normalizeStep w nz))
          | Item.single v => Out.single (BaseSet.normalizeStep w nz v)), lbl) := by
    rw [BaseSet.getitem_eq, hdec]
    rfl
  refine ⟨hcore, ?_, ?_⟩
  · intro views hv
    refine ⟨views.map (BaseSet.normalizeStep w nz), ?_, by simp, ?_⟩
    · rw [hcore, hv]
    · intro k _
      simp [List.getElem?_map]
  · intro v hv
    rw [hcore, hv]

/-- A marker augmentation for the C1 witness: fans the decoded value out
into a two-view list. -/
def augFan : Item (Nat × Nat) (Nat × Nat) → Item (Nat × Nat) (Nat × Nat) :=
  fun it =>
    match it with
    | Item.single v => Item.list [v, PVal.tens (9, 9)]
    | Item.list vs => Item.list vs

/-- A decode stub producing a single raw image and the label `5`. -/
def decodeStub : Nat → Except PyError (Item (Nat × Nat) (Nat × Nat) × OutLabel Nat) :=
  fun _ => Except.ok (Item.single (PVal.img (3, 4)), OutLabel.ofInt 5)

theorem C1_stage_order_witness :
    BaseSet.getitem Wt (some augFan) Option.none decodeStub 0 =
      Except.ok (Out.list [(3, 4), (9, 9)], OutLabel.ofInt 5) := by
  have h := C1_stage_order Wt augFan Option.none decodeStub 0
      (Item.single (PVal.img (3, 4))) (OutLabel.ofInt 5) rfl
  exact h.1

/-- C3: `__getitem__` returns a 2-tuple whose first element is a tensor (or
a list of tensors: the codomain of the normalization step is the tensor
type); a value that is not already a tensor is converted via `to_tensor`
before the configured normalizer is applied, a tensor value is passed to the
normalizer unconverted, and the second element is the label passed through
unchanged from the decode step. -/
theorem C3_tensor_output {Img Tens Arr L : Type} [DecidableEq L]
    (w : World Img Tens Arr) (nz : Option (Tens → Tens)) :
    (∀ i : Img, BaseSet.normalizeStep w nz (PVal.img i) =
        (match nz with
         | some f => f (w.to_tensor i)
         | Option.none => w.to_tensor i))
    ∧ (∀ t : Tens, BaseSet.normalizeStep w nz (PVal.tens t) =
        (match nz with
         | some f => f t
         | Option.none => t))
    ∧ (∀ (ds : ImageSet Img Tens L), ds.normalize = nz →
        ∀ (index : Nat) (img : Img) (lbl : OutLabel L),
          ds.getImageLabelPair w index = Except.ok (img, lbl) →
          ∃ out : Out Tens, ds.getitem w index = Except.ok (out, lbl)) := by
  refine ⟨fun i => rfl, fun t => rfl, ?_⟩
  intro ds _ index img lbl hdec
  rw [ImageSet.getitem, BaseSet.getitem_eq]
  simp only [hdec, Except.map]
  exact ⟨_, rfl⟩

theorem C3_tensor_output_witness :
    ∃ out : Out (Nat × Nat), dsModes.getitem Wt 0 = Except.ok (out, OutLabel.ofInt 1) := by
  exact (C3_tensor_output Wt Option.none).2.2 dsModes rfl 0 (8, 5) (OutLabel.ofInt 1) rfl

/-- C2: for a valid index the decode step resolves the label by exactly
three mutually exclusive modes: no `labels` → the placeholder integer `0`;
`labels` and `class_names` both set → the index of the raw label within
`class_names` (its first occurrence); `labels` set but `class_names` unset →
the raw label unchanged. -/
theorem C2_label_modes {Img Tens Arr L : Type} [DecidableEq L]
    (w : World Img Tens Arr) (ds : ImageSet Img Tens L) (index : Nat) (path : FPath)
    (hpath : ds.img_paths[index]? = some path) (hwf : ds.img_size.wellFormed) :
    (ds.labels = Option.none →
       ds.getImageLabelPair w index =
         Except.ok (ds.decodedImage w path, OutLabel.ofInt 0))
    ∧ (∀ ls cns, ds.labels = some ls → ds.class_names = some cns →
        ∀ hl : index < ls.length, ls.get ⟨index, hl⟩ ∈ cns →
          ∃ i, pyListIndex cns (ls.get ⟨index, hl⟩) = Except.ok i ∧
            cns[i]? = some (ls.get ⟨index, hl⟩) ∧
            ds.getImageLabelPair w index =
              Except.ok (ds.decodedImage w path, OutLabel.ofInt i))
    ∧ (∀ ls, ds.labels = some ls → ds.class_names = Option.none →
        ∀ hl : index < ls.length,
          ds.getImageLabelPair w index =
            Except.ok (ds.decodedImage w path, OutLabel.ofRaw (ls.get ⟨index, hl⟩))) := by
  have hd := ImageSet.getImageLabelPair_decomp w ds index path hpath hwf
  refine ⟨?_, ?_, ?_⟩
  · intro hlb
    rw [hd]
    simp [ImageSet.resolvedLabel, hlb, Except.map]
  · intro ls cns hlb hcn hl hmem
    obtain ⟨i, hi⟩ := pyListIndex_mem cns _ hmem
    refine ⟨i, hi, (pyListIndex_spec cns _ i hi).1, ?_⟩
    rw [hd]
    have hget : pyGetElem ls index = Except.ok (ls.get ⟨index, hl⟩) := by
      simp [pyGetElem, List.getElem?_eq_getElem hl]
    have hi2 := hi
    simp only [List.get_eq_getElem] at hi2
    simp [ImageSet.resolvedLabel, hlb, hcn, hget, hi2, Except.map, Except.bind]
  · intro ls hlb hcn hl
    rw [hd]
    have hget : pyGetElem ls index = Except.ok (ls.get ⟨index, hl⟩) := by
      simp [pyGetElem, List.getElem?_eq_getElem hl]
    simp [ImageSet.resolvedLabel, hlb, hcn, hget, Except.map, Except.bind]

theorem C2_label_modes_witness :
    dsModes.getImageLabelPair Wt 0 = Except.ok ((8, 5), OutLabel.ofInt 1) := by
  have h := (C2_label_modes Wt dsModes 0 pJpg rfl True.intro).2.1
      [7, 8] [8, 7] rfl rfl (by decide) (by decide)
  obtain ⟨i, hi, _, hdec⟩ := h
  have h1 := hi
  rw [show pyListIndex [8, 7] (([7, 8] : List Nat).get ⟨0, by decide⟩) =
      Except.ok (ε := PyError) 1 from rfl] at h1
  injection h1 with h1
  rw [← h1] at hdec
  exact hdec

/-- C4: when `labels` is given and `class_names` is not, `class_names` is
derived at construction as the sorted unique values of `labels` and is not
changed by the only mutator; concretely, `labels=['cat','dog','cat']` yields
the vocabulary `['cat','dog']`, retrieval of index 0 the label `0` and of
index 1 the label `1`. -/
theorem C4_label_table {Img Tens Arr L : Type} [DecidableEq L] [LinearOrder L]
    (w : World Img Tens Arr) (ps : List FPath) (lblsArg : Option (List L))
    (sz : ImgSizeArg) (aug : Option (Item Img Tens → Item Img Tens))
    (cnsArg : Option (List L)) (nzArg : NormalizeArg Tens)
    (hcn : listTruthy cnsArg = false) (hlb : listTruthy lblsArg = true) :
    ((ImageSet.init w ps lblsArg sz aug cnsArg nzArg).class_names =
      some (pySortedSet (lblsArg.getD [])))
    ∧ (∀ f, ((ImageSet.init w ps lblsArg sz aug cnsArg nzArg).set_data_augmentation
          f).class_names =
        (ImageSet.init w ps lblsArg sz aug cnsArg nzArg).class_names)
    ∧ dsCats.class_names = some ["cat", "dog"]
    ∧ dsCats.getImageLabelPair Wt 0 = Except.ok ((8, 5), OutLabel.ofInt 0)
    ∧ dsCats.getImageLabelPair Wt 1 = Except.ok ((9, 5), OutLabel.ofInt 1) := by
  have hvocab : pySortedSet ["cat", "dog", "cat"] = ["cat", "dog"] := by
    simp [pySortedSet, List.dedup, List.pwFilter, List.insertionSort,
      List.orderedInsert]
    decide
  have hcats : dsCats.class_names = some ["cat", "dog"] := by
    rw [show dsCats.class_names = some (pySortedSet ["cat", "dog", "cat"]) from rfl,
      hvocab]
  refine ⟨?_, fun f => rfl, hcats, ?_, ?_⟩
  · simp [ImageSet.init, hcn, hlb]
  · have h0 := ImageSet.getImageLabelPair_decomp Wt dsCats 0 pJpg rfl True.intro
    rw [h0]
    have hlbls : dsCats.labels = some ["cat", "dog", "cat"] := rfl
    have hpy : pyListIndex ["cat", "dog"] "cat" = Except.ok 0 := rfl
    simp [ImageSet.resolvedLabel, hlbls, hcats, pyGetElem, hpy, Except.map,
      Except.bind]
    rfl
  · have h1 := ImageSet.getImageLabelPair_decomp Wt dsCats 1 pPng rfl True.intro
    rw [h1]
    have hlbls : dsCats.labels = some ["cat", "dog", "cat"] := rfl
    have hpy : pyListIndex ["cat", "dog"] "dog" = Except.ok 1 := rfl
    simp [ImageSet.resolvedLabel, hlbls, hcats, pyGetElem, hpy, Except.map,
      Except.bind]
    rfl

theorem C4_label_table_witness :
    (ImageSet.init Wt [pJpg] (some [2, 1]) ImgSizeArg.none Option.none Option.none
        NormalizeArg.fls).class_names = some (pySortedSet [2, 1])
    ∧ dsCats.getImageLabelPair Wt 0 = Except.ok ((8, 5), OutLabel.ofInt 0) := by
  have h := C4_label_table Wt [pJpg] (some ([2, 1] : List Nat)) ImgSizeArg.none
      Option.none Option.none NormalizeArg.fls rfl rfl
  exact ⟨h.1, h.2.2.2.1⟩

/-- C5 (amended): a target size given as a `(width, height)` tuple, or as a
single non-zero integer `n` (squared to `(n, n)` by `__init__`), makes the
decode step resize every image to exactly that size with nearest-neighbor
interpolation; with no target size configured no resize occurs; and — the
amendment — the integer `0` is falsy, so a target size configured as `0` is
treated as unset and no resize occurs either. -/
theorem C5_resize_amended {Img Tens Arr L : Type} [DecidableEq L] [LinearOrder L]
    (w : World Img Tens Arr) (ps : List FPath) (lblsArg : Option (List L))
    (aug : Option (Item Img Tens → Item Img Tens)) (cnsArg : Option (List L))
    (nzArg : NormalizeArg Tens) (index : Nat) (path : FPath)
    (hpath : ps[index]? = some path)
    (hres : ∀ i sz itp, w.imgSize (w.resize i sz itp) = sz) :
    (∀ n : Nat, n ≠ 0 →
      (ImageSet.init w ps lblsArg (ImgSizeArg.int n) aug cnsArg
          nzArg).getImageLabelPair w index =
        ((ImageSet.init w ps lblsArg (ImgSizeArg.int n) aug cnsArg
            nzArg).resolvedLabel index).map
          (fun lbl => (w.resize (w.rawRGB path) (n, n) Interp.nearest, lbl))
      ∧ ∀ img lbl,
          (ImageSet.init w ps lblsArg (ImgSizeArg.int n) aug cnsArg
              nzArg).getImageLabelPair w index = Except.ok (img, lbl) →
            w.imgSize img = (n, n))
    ∧ (∀ a b : Nat,
      (ImageSet.init w ps lblsArg (ImgSizeArg.pair a b) aug cnsArg
          nzArg).getImageLabelPair w index =
        ((ImageSet.init w ps lblsArg (ImgSizeArg.pair a b) aug cnsArg
            nzArg).resolvedLabel index).map
          (fun lbl => (w.resize (w.rawRGB path) (a, b) Interp.nearest, lbl))
      ∧ ∀ img lbl,
          (ImageSet.init w ps lblsArg (ImgSizeArg.pair a b) aug cnsArg
              nzArg).getImageLabelPair w index = Except.ok (img, lbl) →
            w.imgSize img = (a, b))
    ∧ ((ImageSet.init w ps lblsArg ImgSizeArg.none aug cnsArg
          nzArg).getImageLabelPair w index =
        ((ImageSet.init w ps lblsArg ImgSizeArg.none aug cnsArg
            nzArg).resolvedLabel index).map (fun lbl => (w.rawRGB path, lbl)))
    ∧ ((ImageSet.init w ps lblsArg (ImgSizeArg.int 0) aug cnsArg
          nzArg).getImageLabelPair w index =
        ((ImageSet.init w ps lblsArg (ImgSizeArg.int 0) aug cnsArg
            nzArg).resolvedLabel index).map (fun lbl => (w.rawRGB path, lbl))) := by
  refine ⟨?_, ?_, ?_, ?_⟩
  · intro n hn
    have hsz : (ImageSet.init w ps lblsArg (ImgSizeArg.int n) aug cnsArg
        nzArg).img_size = ImgSizeArg.pair n n := by
      simp [ImageSet.init, hn]
    have hwf : (ImageSet.init w ps lblsArg (ImgSizeArg.int n) aug cnsArg
        nzArg).img_size.wellFormed := by
      rw [hsz]
      trivial
    have hd := ImageSet.getImageLabelPair_decomp w
      (ImageSet.init w ps lblsArg (ImgSizeArg.int n) aug cnsArg nzArg)
      index path hpath hwf
    have himg : (ImageSet.init w ps lblsArg (ImgSizeArg.int n) aug cnsArg
        nzArg).decodedImage w path = w.resize (w.rawRGB path) (n, n) Interp.nearest := by
      simp [ImageSet.decodedImage, hsz]
    constructor
    · rw [hd, himg]
    · intro img lbl h
      rw [hd, himg] at h
      rcases hr : (ImageSet.init w ps lblsArg (ImgSizeArg.int n) aug cnsArg
          nzArg).resolvedLabel index with e | lbl0
      · rw [hr] at h
        simp [Except.map] at h
      · rw [hr] at h
        simp only [Except.map] at h
        injection h with h2
        have himg2 : w.resize (w.rawRGB path) (n, n) Interp.nearest = img :=
          congrArg Prod.fst h2
        rw [← himg2, hres]
  · intro a b
    have hsz : (ImageSet.init w ps lblsArg (ImgSizeArg.pair a b) aug cnsArg
        nzArg).img_size = ImgSizeArg.pair a b := rfl
    have hd := ImageSet.getImageLabelPair_decomp w
      (ImageSet.init w ps lblsArg (ImgSizeArg.pair a b) aug cnsArg nzArg)
      index path hpath True.intro
    have himg : (ImageSet.init w ps lblsArg (ImgSizeArg.pair a b) aug cnsArg
        nzArg).decodedImage w path = w.resize (w.rawRGB path) (a, b) Interp.nearest := rfl
    constructor
    · rw [hd, himg]
    · intro img lbl h
      rw [hd, himg] at h
      rcases hr : (ImageSet.init w ps lblsArg (ImgSizeArg.pair a b) aug cnsArg
          nzArg).resolvedLabel index with e | lbl0
      · rw [hr] at h
        simp [Except.map] at h
      · rw [hr] at h
        simp only [Except.map] at h
        injection h with h2
        have himg2 : w.resize (w.rawRGB path) (a, b) Interp.nearest = img :=
          congrArg Prod.fst h2
        rw [← himg2, hres]
  · have hd := ImageSet.getImageLabelPair_decomp w
      (ImageSet.init w ps lblsArg ImgSizeArg.none aug cnsArg nzArg)
      index path hpath True.intro
    rw [hd]
    rfl
  · have hd := ImageSet.getImageLabelPair_decomp w
      (ImageSet.init w ps lblsArg (ImgSizeArg.int 0) aug cnsArg nzArg)
      index path hpath rfl
    rw [hd]
    rfl

/-- C5 as stated is false on the code: with a target size configured as the
single integer `0`, the decode step performs no resize — the returned image
is the raw opened image, not an image of the configured `(0, 0)` size. -/
theorem C5_counterexample :
    dsZero.img_size = ImgSizeArg.int 0
    ∧ dsZero.getImageLabelPair Wt 0 = Except.ok ((8, 5), OutLabel.ofInt 0)
    ∧ (8, 5) ≠ Wt.resize (Wt.rawRGB pJpg) (0, 0) Interp.nearest
    ∧ Wt.imgSize (8, 5) ≠ ((0 : Nat), (0 : Nat)) :=
  ⟨rfl, rfl, by decide, by decide⟩

theorem C5_resize_amended_witness :
    dsSq.getImageLabelPair Wt 0 = Except.ok ((2, 2), OutLabel.ofInt 0)
    ∧ Wt.imgSize (2, 2) = (2, 2) := by
  have h := (C5_resize_amended Wt [pJpg] (Option.none : Option (List Nat))
      Option.none Option.none NormalizeArg.fls 0 pJpg rfl (fun i sz itp => rfl)).1
      2 (by decide)
  exact ⟨h.1.trans rfl, rfl⟩

/-- C6: the decode step branches on the file extension: a `.dcm` path is
read via pixel-array extraction and RGB construction from the array, any
other path is opened as a general raster image and converted to RGB; the
pixel-array path is never used for a non-`.dcm` extension (the result does
not depend on the medical-imaging operations at all). -/
theorem C6_format_branch {Img Tens Arr L : Type} [DecidableEq L]
    (w : World Img Tens Arr) (ds : ImageSet Img Tens L) (index : Nat) (path : FPath)
    (hpath : ds.img_paths[index]? = some path) (hwf : ds.img_size.wellFormed) :
    (path.suffix = ".dcm" →
      ds.getImageLabelPair w index =
        (ds.resolvedLabel index).map (fun lbl =>
          ((match ds.img_size with
            | ImgSizeArg.pair a b =>
                w.resize (w.fromarrayRGB (w.dcmPixelArray path)) (a, b) Interp.nearest
            | _ => w.fromarrayRGB (w.dcmPixelArray path)), lbl)))
    ∧ (path.suffix ≠ ".dcm" →
      ds.getImageLabelPair w index =
        (ds.resolvedLabel index).map (fun lbl =>
          ((match ds.img_size with
            | ImgSizeArg.pair a b => w.resize (w.openRGB path) (a, b) Interp.nearest
            | _ => w.openRGB path), lbl)))
    ∧ (∀ w2 : World Img Tens Arr, path.suffix ≠ ".dcm" →
        w2.openRGB = w.openRGB → w2.resize = w.resize →
        ds.getImageLabelPair w2 index = ds.getImageLabelPair w index) := by
  have hd := ImageSet.getImageLabelPair_decomp w ds index path hpath hwf
  refine ⟨?_, ?_, ?_⟩
  · intro hsuf
    rw [hd]
    have hraw : w.rawRGB path = w.fromarrayRGB (w.dcmPixelArray path) := by
      simp [World.rawRGB, hsuf]
    rw [show ds.decodedImage w path =
        (match ds.img_size with
         | ImgSizeArg.pair a b =>
             w.resize (w.fromarrayRGB (w.dcmPixelArray path)) (a, b) Interp.nearest
         | _ => w.fromarrayRGB (w.dcmPixelArray path)) by
      rw [ImageSet.decodedImage, hraw]]
  · intro hsuf
    rw [hd]
    have hraw : w.rawRGB path = w.openRGB path := by
      simp [World.rawRGB, hsuf]
    rw [show ds.decodedImage w path =
        (match ds.img_size with
         | ImgSizeArg.pair a b => w.resize (w.openRGB path) (a, b) Interp.nearest
         | _ => w.openRGB path) by
      rw [ImageSet.decodedImage, hraw]]
  · intro w2 hsuf hop hrs
    have hd2 := ImageSet.getImageLabelPair_decomp w2 ds index path hpath hwf
    rw [hd, hd2]
    have hraw : w2.rawRGB path = w.rawRGB path := by
      simp [World.rawRGB, hsuf, hop]
    rw [show ds.decodedImage w2 path = ds.decodedImage w path by
      rw [ImageSet.decodedImage, ImageSet.decodedImage, hraw, hrs]]

theorem C6_format_branch_witness :
    dsMixed.getImageLabelPair Wt 0 = Except.ok ((3, 4), OutLabel.ofInt 0)
    ∧ dsMixed.getImageLabelPair Wt 1 = Except.ok ((8, 5), OutLabel.ofInt 0) := by
  have h0 := (C6_format_branch Wt dsMixed 0 pDcm rfl True.intro).1 rfl
  have h1 := (C6_format_branch Wt dsMixed 1 pJpg rfl True.intro).2.1 (by decide)
  exact ⟨h0.trans rfl, h1.trans rfl⟩

/-- C7: when `labels` is present, `class_names` is set, and the raw label at
the index does not occur in `class_names`, the decode step raises
`ValueError` from the `.index` lookup, and `__getitem__` propagates that
error unchanged — no fallback class and no recovery. -/
theorem C7_missing_class {Img Tens Arr L : Type} [DecidableEq L]
    (w : World Img Tens Arr) (ds : ImageSet Img Tens L) (index : Nat) (path : FPath)
    (hpath : ds.img_paths[index]? = some path) (hwf : ds.img_size.wellFormed)
    (ls cns : List L) (hlb : ds.labels = some ls) (hcn : ds.class_names = some cns)
    (hl : index < ls.length) (hmem : ls.get ⟨index, hl⟩ ∉ cns) :
    ds.getImageLabelPair w index = Except.error PyError.valueError
    ∧ ds.getitem w index = Except.error PyError.valueError := by
  have hd := ImageSet.getImageLabelPair_decomp w ds index path hpath hwf
  have hget : pyGetElem ls index = Except.ok (ls.get ⟨index, hl⟩) := by
    simp [pyGetElem, List.getElem?_eq_getElem hl]
  have hmem2 := pyListIndex_not_mem cns _ hmem
  simp only [List.get_eq_getElem] at hmem2
  have herr : ds.getImageLabelPair w index = Except.error PyError.valueError := by
    rw [hd]
    simp [ImageSet.resolvedLabel, hlb, hcn, hget, hmem2, Except.map, Except.bind]
  refine ⟨herr, ?_⟩
  rw [ImageSet.getitem, BaseSet.getitem_eq]
  simp [herr, Except.map]

theorem C7_missing_class_witness :
    dsOrphan.getImageLabelPair Wt 0 = Except.error PyError.valueError
    ∧ dsOrphan.getitem Wt 0 = Except.error PyError.valueError := by
  exact C7_missing_class Wt dsOrphan 0 pJpg rfl True.intro [5] [1, 2] rfl rfl
    (by decide) (by decide)

/-- C8: retrieval with no augmentation configured is pure given the
immutable configuration and the fixed contents of the world: the
state-passing form of `__getitem__` leaves the instance unchanged, and a
second retrieval of the same index from the resulting state returns the
identical result. -/
theorem C8_pure_retrieval {Img Tens Arr L : Type} [DecidableEq L]
    (w : World Img Tens Arr) (ds : ImageSet Img Tens L) (index : Nat)
    (_hna : ds.data_augmentation = Option.none) :
    ((ImageSet.getitemSt w ds index).2 = ds)
    ∧ ((ImageSet.getitemSt w (ImageSet.getitemSt w ds index).2 index).1 =
        (ImageSet.getitemSt w ds index).1) :=
  ⟨rfl, rfl⟩

theorem C8_pure_retrieval_witness :
    ((ImageSet.getitemSt Wt dsMixed 0).2 = dsMixed)
    ∧ ((ImageSet.getitemSt Wt (ImageSet.getitemSt Wt dsMixed 0).2 0).1 =
        (ImageSet.getitemSt Wt dsMixed 0).1) :=
  C8_pure_retrieval Wt dsMixed 0 rfl

/-- C9 as stated is false on the code: `__init__` performs no length check,
so an instance can be constructed with two paths and a single label, and for
it `len(paths) ≠ len(labels)` even though labels are present. -/
theorem C9_counterexample :
    dsMismatch.labels = some [3]
    ∧ dsMismatch.len = 2
    ∧ ¬ dsMismatch.img_paths.length = (dsMismatch.labels.getD []).length :=
  ⟨rfl, rfl, by decide⟩

/-- C9 (amended): the constructor stores `paths` and `labels` exactly as
given and never checks them, and no operation mutates them (the only mutator
replaces only the augmentation), so *if* the caller supplies sequences of
equal length the invariant `len(paths) == len(labels)` holds at construction
and for the life of the instance; `len()` always returns `len(paths)`. -/
theorem C9_len_invariant {Img Tens Arr L : Type} [DecidableEq L] [LinearOrder L]
    (w : World Img Tens Arr) (ps : List FPath) (ls : List L) (sz : ImgSizeArg)
    (aug : Option (Item Img Tens → Item Img Tens)) (cnsArg : Option (List L))
    (nzArg : NormalizeArg Tens) (h : ps.length = ls.length) :
    ((ImageSet.init w ps (some ls) sz aug cnsArg nzArg).img_paths.length =
      ((ImageSet.init w ps (some ls) sz aug cnsArg nzArg).labels.getD []).length)
    ∧ (∀ f, ((ImageSet.init w ps (some ls) sz aug cnsArg
          nzArg).set_data_augmentation f).img_paths =
            (ImageSet.init w ps (some ls) sz aug cnsArg nzArg).img_paths
        ∧ ((ImageSet.init w ps (some ls) sz aug cnsArg
            nzArg).set_data_augmentation f).labels =
            (ImageSet.init w ps (some ls) sz aug cnsArg nzArg).labels)
    ∧ ((ImageSet.init w ps (some ls) sz aug cnsArg nzArg).len =
        (ImageSet.init w ps (some ls) sz aug cnsArg nzArg).img_paths.length) := by
  exact ⟨h, fun f => ⟨rfl, rfl⟩, rfl⟩

theorem C9_len_invariant_witness :
    ((ImageSet.init Wt [pJpg, pPng] (some [4, 6]) ImgSizeArg.none Option.none
        Option.none NormalizeArg.fls).img_paths.length =
      ((ImageSet.init Wt [pJpg, pPng] (some [4, 6]) ImgSizeArg.none Option.none
          Option.none NormalizeArg.fls).labels.getD []).length)
    ∧ ((ImageSet.init Wt [pJpg, pPng] (some [4, 6]) ImgSizeArg.none Option.none
        Option.none NormalizeArg.fls).len = 2) := by
  have h := C9_len_invariant Wt [pJpg, pPng] [4, 6] ImgSizeArg.none Option.none
      Option.none NormalizeArg.fls (by decide)
  exact ⟨h.1, h.2.2.trans rfl⟩

/-- C10: whenever labels are a non-empty sequence, `class_names` is non-None
after construction (explicit truthy argument or derived), so retrieval only
ever emits an integer class index in labeled use; the raw-label mode
requires `class_names = None` with labels present, which `__init__` produces
only when the labels sequence itself is empty. -/
theorem C10_raw_mode_unreachable {Img Tens Arr L : Type} [DecidableEq L]
    [LinearOrder L] (w : World Img Tens Arr) (ps : List FPath) (ls : List L)
    (sz : ImgSizeArg) (aug : Option (Item Img Tens → Item Img Tens))
    (cnsArg : Option (List L)) (nzArg : NormalizeArg Tens) (hne : ls ≠ []) :
    ((ImageSet.init w ps (some ls) sz aug cnsArg nzArg).class_names ≠ Option.none)
    ∧ (∀ (ds : ImageSet Img Tens L) (ls2 cns : List L), ds.img_size.wellFormed →
        ds.labels = some ls2 → ds.class_names = some cns →
        ∀ (index : Nat) (img : Img) (lbl : OutLabel L),
          ds.getImageLabelPair w index = Except.ok (img, lbl) →
          ∃ i, lbl = OutLabel.ofInt i)
    ∧ (∀ (lblArg cnArg : Option (List L)) (ls0 : List L),
        (ImageSet.init w ps lblArg sz aug cnArg nzArg).class_names = Option.none →
        lblArg = some ls0 → ls0 = []) := by
  refine ⟨?_, ?_, ?_⟩
  · have hlb : listTruthy (some ls) = true := by
      simp [listTruthy, hne]
    rcases hc : listTruthy cnsArg with _ | _
    · simp [ImageSet.init, hc, hlb]
    · rcases cnsArg with _ | cs
      · simp [listTruthy] at hc
      · simp [ImageSet.init, hc]
  · intro ds ls2 cns hwf hlb hcn index img lbl h
    rcases hp : ds.img_paths[index]? with _ | path
    · rw [ImageSet.getImageLabelPair, pyGetElem, hp] at h
      simp [Bind.bind, Except.bind] at h
    · rw [ImageSet.getImageLabelPair_decomp w ds index path hp hwf] at h
      rcases hr : ds.resolvedLabel index with e | lbl0
      · rw [hr] at h
        simp [Except.map] at h
      · rw [hr] at h
        simp only [Except.map] at h
        injection h with h2
        have hlbl : lbl0 = lbl := congrArg Prod.snd h2
        simp only [ImageSet.resolvedLabel, hlb] at hr
        rcases hg : pyGetElem ls2 index with e2 | rawLabel
        · rw [hg] at hr
          simp [Except.bind] at hr
        · rw [hg] at hr
          simp only [Except.bind, hcn] at hr
          rcases hpi : pyListIndex cns rawLabel with e3 | i
          · rw [hpi] at hr
            simp [Except.map] at hr
          · rw [hpi] at hr
            simp only [Except.map] at hr
            injection hr with hr2
            exact ⟨i, by rw [← hlbl, ← hr2]⟩
  · intro lblArg cnArg ls0 hnone hsome
    subst hsome
    by_cases h0 : ls0 = []
    · exact h0
    · exfalso
      have hlb : listTruthy (some ls0) = true := by
        simp [listTruthy, h0]
      have hnn : (ImageSet.init w ps (some ls0) sz aug cnArg nzArg).class_names ≠
          Option.none := by
        rcases hc : listTruthy cnArg with _ | _
        · simp [ImageSet.init, hc, hlb]
        · rcases cnArg with _ | cs
          · simp [listTruthy] at hc
          · simp [ImageSet.init, hc]
      exact hnn hnone

theorem C10_raw_mode_unreachable_witness :
    dsCats.class_names ≠ Option.none
    ∧ (ImageSet.init Wt ([] : List FPath) (some ([] : List Nat)) ImgSizeArg.none
        Option.none Option.none NormalizeArg.fls).class_names = Option.none := by
  have h := C10_raw_mode_unreachable Wt [pJpg, pPng, pDcm] ["cat", "dog", "cat"]
      ImgSizeArg.none Option.none Option.none NormalizeArg.fls (by decide)
  exact ⟨h.1, rfl⟩
